import Mathlib

/-!
Shallow embedding of src/log_aggregator.py.

The module defines a logging handler, LogAggregatorHandler, with a nested
per-key accumulator class, LogAggregatorCache.  The embedding below models:

* a log record as the data the handler reads from it: the unformatted
  message template (msg, possibly the Python value None), the creation
  timestamp (created), the formatting arguments (args), and attribute
  lookup by name (attrs, returning the stringified value when the
  attribute is present);
* an aggregation entry (class LogAggregatorCache) with its cache method,
  whose assertion failure on a message mismatch is modelled as an error
  value returned together with the entry as mutated up to the raise point;
* the handler state: flush interval, separator, metadata list, the live
  cache (an insertion-ordered association list, modelling a Python dict),
  and whether a flush timer is currently armed;
* the class-level attribute _default_metadata as explicit ClassState,
  because the constructor's statement self._metadata = self._default_metadata
  binds the instance attribute to the very same list object and
  self._metadata += [...] then mutates that shared object in place;
* emit, find_unique, and store_aggregation; the external sink
  (self.agg_log.info) is a parameter returning true on success and false
  when the call raises, and an exception during the emission loop is the
  error branch of an Except result.
-/

/-- A log record, reduced to the data the handler reads from it.  The field
msg is the unformatted message template, with none standing for Python None;
created is the record's creation time; args the formatting arguments (an
opaque value, none when absent); attrs gives the stringified value of a
named attribute, none when the record lacks the attribute. -/
structure LogRecord where
  msg : Option String
  created : Int
  args : Option String
  attrs : String → Option String

/-- The failure raised by LogAggregatorCache.cache.  In the source it is an
assertion failure with text "Non-matching log record"; the specification
names the condition MismatchedMessageError. -/
inductive CacheError where
  | mismatchedMessage
deriving DecidableEq

/-- Per-key accumulator, class LogAggregatorCache: first-seen message,
occurrence counter, and parallel per-occurrence timestamp and args lists. -/
structure LogAggregatorCache where
  message : Option String
  counter : Nat
  timestamp : List Int
  args : List (Option String)
deriving DecidableEq

/-- LogAggregatorCache.__init__ with no record argument (the only way the
handler ever constructs one, via the defaultdict factory): message None,
counter 0, empty lists. -/
def LogAggregatorCache.new : LogAggregatorCache :=
  { message := none, counter := 0, timestamp := [], args := [] }

/-- LogAggregatorCache.cache.  Mirrors the source line by line: when the
stored message is None it is first overwritten with the record's message;
then the assertion compares the stored message with the record's message,
and on mismatch the method raises, returning the entry as mutated so far
together with the error; otherwise the timestamp and args are appended and
the counter incremented. -/
def LogAggregatorCache.cache (self : LogAggregatorCache) (record : LogRecord) :
    LogAggregatorCache × Option CacheError :=
  let self := if self.message = none then { self with message := record.msg } else self
  if self.message = record.msg then
    ({ self with
        timestamp := self.timestamp ++ [record.created],
        args := self.args ++ [record.args],
        counter := self.counter + 1 }, none)
  else
    (self, some CacheError.mismatchedMessage)

/-- LogAggregatorCache.__str__.  The format string in the source is the
message, a tab, a space, then the occurrence count in parentheses.  When the
stored message is None the string concatenation raises a TypeError, modelled
as the value none. -/
def LogAggregatorCache.toStr (self : LogAggregatorCache) : Option String :=
  self.message.map
    (fun m => m ++ "\t (occurred " ++ toString self.counter ++ " times)")

/-- Class attribute _default_flush_timer. -/
def default_flush_timer : Int := 300

/-- Class attribute _default_separator. -/
def default_separator : String := "\t"

/-- Contents of the class-level list object _default_metadata.  Every
instance's _metadata attribute aliases this one object (plain assignment in
__init__), so in-place growth of the list is visible to all instances. -/
structure ClassState where
  defaultMetadata : List String
deriving DecidableEq

/-- The value of _default_metadata when the class is first loaded. -/
def initialClassState : ClassState :=
  { defaultMetadata := ["filename", "name", "funcName", "lineno", "levelname"] }

/-- Python truthiness of the idiom x or d for an optional integer
argument: None and 0 are falsy and give the default. -/
def pyOrInt (x : Option Int) (d : Int) : Int :=
  match x with
  | none => d
  | some v => if v = 0 then d else v

/-- Python truthiness of the idiom x or d for an optional string
argument: None and the empty string are falsy and give the default. -/
def pyOrStr (x : Option String) (d : String) : String :=
  match x with
  | none => d
  | some s => if s = "" then d else s

/-- State of one LogAggregatorHandler instance: the flush interval, the
separator, the metadata list used for key derivation (its value at the time
of use, see ClassState for the aliasing), the live cache as an
insertion-ordered association list modelling the defaultdict, and whether a
flush timer is currently armed. -/
structure LogAggregatorHandler where
  flush_timer : Int
  separator : String
  metadata : List String
  cache : List (String × LogAggregatorCache)
  timerArmed : Bool
deriving DecidableEq

/-- Effect of __init__ on the class-level _default_metadata list.  The
statement self._metadata = self._default_metadata makes the instance
attribute alias the class list object, and self._metadata += a two-element
list then mutates that shared object in place, appending process and thread
to the class attribute itself; with the flag false the list is untouched. -/
def initMetadataEffect (add_process_thread : Bool) (cs : ClassState) : ClassState :=
  if add_process_thread then
    { defaultMetadata := cs.defaultMetadata ++ ["process", "thread"] }
  else cs

/-- LogAggregatorHandler.__init__, run in class state cs.  Returns the new
instance state and the class state after the constructor's side effect on
_default_metadata.  The flush interval and separator go through Python's
or-defaulting; no validation of any argument is performed.  The instance's
metadata is the (possibly just grown) class list; the cache starts empty and
a flush timer is armed. -/
def LogAggregatorHandler.init (cs : ClassState) (flush_timer : Option Int)
    (separator : Option String) (add_process_thread : Bool) :
    LogAggregatorHandler × ClassState :=
  let cs := initMetadataEffect add_process_thread cs
  ({ flush_timer := pyOrInt flush_timer default_flush_timer,
     separator := pyOrStr separator default_separator,
     metadata := cs.defaultMetadata,
     cache := [],
     timerArmed := true }, cs)

/-- Lookup in the cache dict (keys are unique in every reachable cache). -/
def dictGet (c : List (String × LogAggregatorCache)) (k : String) :
    Option LogAggregatorCache :=
  match c with
  | [] => none
  | (k', v) :: rest => if k' = k then some v else dictGet rest k

/-- Insert-or-update in the cache dict, keeping insertion order, as a Python
dict does. -/
def dictSet (c : List (String × LogAggregatorCache)) (k : String)
    (v : LogAggregatorCache) : List (String × LogAggregatorCache) :=
  match c with
  | [] => [(k, v)]
  | (k', v') :: rest =>
    if k' = k then (k, v) :: rest else (k', v') :: dictSet rest k v

/-- Python string slice s[:-n] measured in code points: for n = 0 the slice
s[:0] is empty, otherwise the first length - n characters remain. -/
def pySliceToNeg (s : String) (n : Nat) : String :=
  if n = 0 then "" else String.mk (s.data.take (s.data.length - n))

/-- LogAggregatorHandler.find_unique.  Builds the metadata string by
appending, for each configured attribute name, the attribute's stringified
value (or the literal placeholder missing plus the name when the record
lacks the attribute) followed by the separator, then slices off the final
separator. -/
def LogAggregatorHandler.find_unique (self : LogAggregatorHandler)
    (record : LogRecord) : String :=
  let metadata := self.metadata.foldl
    (fun acc single_metadata =>
      acc ++ ((record.attrs single_metadata).getD ("missing " ++ single_metadata))
          ++ self.separator) ""
  pySliceToNeg metadata self.separator.length

/-- LogAggregatorHandler.emit.  Under the lock, derives the identity key and
folds the record into the entry at that key; the defaultdict installs a
fresh entry on a miss before cache runs.  Any exception from the cache call
is caught and routed to handleError, so the handler state keeps the entry as
mutated up to the raise point and the producer never sees a failure. -/
def LogAggregatorHandler.emit (self : LogAggregatorHandler) (record : LogRecord) :
    LogAggregatorHandler :=
  let metadata := self.find_unique record
  let entry := (dictGet self.cache metadata).getD LogAggregatorCache.new
  let res := entry.cache record
  { self with cache := dictSet self.cache metadata res.1 }

deriving instance DecidableEq for Except

/-- Lexicographic at-most comparison of character lists by code point,
exactly Python's string comparison. -/
def pyCharListLe : List Char → List Char → Bool
  | [], _ => true
  | _ :: _, [] => false
  | a :: as, b :: bs =>
    if a < b then true
    else if b < a then false
    else pyCharListLe as bs

/-- Python's string at-most comparison: lexicographic over code points. -/
def pyStrLe (s t : String) : Bool :=
  pyCharListLe s.data t.data

/-- Stable insertion of a pair into a key-sorted list of pairs; helper for
the model of Python's sorted. -/
def insertPair (p : String × LogAggregatorCache) :
    List (String × LogAggregatorCache) → List (String × LogAggregatorCache)
  | [] => [p]
  | q :: rest => if pyStrLe p.1 q.1 then p :: q :: rest else q :: insertPair p rest

/-- Model of Python's sorted over the items of the detached cache.  Python
compares the (key, value) tuples, which on the reachable caches (distinct
keys) is exactly comparison of the key strings; on a hypothetical input with
duplicate keys Python would raise a TypeError comparing the entry objects,
so only the distinct-key behaviour is meaningful. -/
def sortPairs : List (String × LogAggregatorCache) →
    List (String × LogAggregatorCache)
  | [] => []
  | p :: rest => insertPair p (sortPairs rest)

/-- Emission loop of store_aggregation: for each (key, value) pair of the
sorted snapshot, format the line as the key, a tab, and str(value), and hand
it to the sink (self.agg_log.info).  Rendering a None message raises a
TypeError and a sink returning false models the sink call raising; either
exception aborts the loop and propagates. -/
def emitLoop (sink : String → Bool) :
    List (String × LogAggregatorCache) → Except Unit (List String)
  | [] => Except.ok []
  | (key, value) :: rest =>
    match value.toStr with
    | none => Except.error ()
    | some s =>
      let line := key ++ "\t" ++ s
      if sink line then
        match emitLoop sink rest with
        | Except.ok lines => Except.ok (line :: lines)
        | Except.error e => Except.error e
      else Except.error ()

/-- LogAggregatorHandler.store_aggregation.  Cancels and deletes the
outstanding timer, swaps the live cache for a fresh empty one under the lock
keeping the old one as the snapshot, runs the emission loop over the sorted
snapshot, and only after the loop finished without raising creates and
starts a new timer; an exception from the loop propagates and the re-arm
lines are never reached. -/
def LogAggregatorHandler.store_aggregation (self : LogAggregatorHandler)
    (sink : String → Bool) : LogAggregatorHandler × Except Unit (List String) :=
  let self := { self with timerArmed := false }
  let temp_aggregation := self.cache
  let self := { self with cache := [] }
  match emitLoop sink (sortPairs temp_aggregation) with
  | Except.error e => (self, Except.error e)
  | Except.ok lines => ({ self with timerArmed := true }, Except.ok lines)

/-- LogAggregatorHandler.flush just delegates to store_aggregation. -/
def LogAggregatorHandler.flush (self : LogAggregatorHandler)
    (sink : String → Bool) : LogAggregatorHandler × Except Unit (List String) :=
  self.store_aggregation sink

/-- Specification-side join (for the refinement statement about
find_unique): the values concatenated with the separator between consecutive
values and no trailing separator. -/
def joinSep (sep : String) : List String → String
  | [] => ""
  | [v] => v
  | v :: w :: rest => v ++ sep ++ joinSep sep (w :: rest)

/-- Attribute table of the sample record used in concrete scenarios: the
five default metadata attributes are present, everything else is absent. -/
def sampleAttrs : String → Option String := fun a =>
  if a = "filename" then some "app.py"
  else if a = "name" then some "root"
  else if a = "funcName" then some "main"
  else if a = "lineno" then some "42"
  else if a = "levelname" then some "ERROR"
  else none

/-- A concrete record with message "disk full" and the sample attributes. -/
def sampleRecord : LogRecord :=
  { msg := some "disk full", created := 1, args := none, attrs := sampleAttrs }

/-- A concrete record whose message template is Python None. -/
def noneMsgRecord : LogRecord :=
  { msg := none, created := 0, args := none, attrs := sampleAttrs }

/-- A freshly constructed handler with all-default configuration, in a fresh
class state. -/
def freshHandler : LogAggregatorHandler :=
  (LogAggregatorHandler.init initialClassState none none false).1

/-- Concatenation of each value followed by the separator, the shape built
by find_unique's loop before the final slice. -/
def concatSep (sep : String) : List String → String
  | [] => ""
  | v :: rest => v ++ sep ++ concatSep sep rest

/-- Entry with message "a" and one occurrence, for the ordering scenario. -/
def entryA : LogAggregatorCache :=
  { message := some "a", counter := 1, timestamp := [10], args := [none] }

/-- Entry with message "b" and one occurrence, for the ordering scenario. -/
def entryB : LogAggregatorCache :=
  { message := some "b", counter := 1, timestamp := [30], args := [none] }

/-- Entry with message "c" and one occurrence, for the ordering scenario. -/
def entryC : LogAggregatorCache :=
  { message := some "c", counter := 1, timestamp := [20], args := [none] }

/-- Handler state whose live cache holds keys inserted in the order
A-tab-x, C-tab-z, B-tab-y, as in the ordering scenario of the spec. -/
def orderedScenarioState : LogAggregatorHandler :=
  { flush_timer := 300, separator := "\t",
    metadata := initialClassState.defaultMetadata,
    cache := [("A\tx", entryA), ("C\tz", entryC), ("B\ty", entryB)],
    timerArmed := true }

/-- Entry that already stores the message "ok", with two occurrences. -/
def mismatchEntry : LogAggregatorCache :=
  { message := some "ok", counter := 2, timestamp := [5, 6], args := [none, none] }

/-- Record whose message differs from mismatchEntry's stored message. -/
def failRecord : LogRecord :=
  { msg := some "fail", created := 7, args := none, attrs := sampleAttrs }

/-- Handler state with one flushable entry, used to exercise a raising sink. -/
def oneEntryState : LogAggregatorHandler :=
  { flush_timer := 300, separator := "\t",
    metadata := initialClassState.defaultMetadata,
    cache := [("k", { message := some "boom", counter := 1,
                      timestamp := [0], args := [none] })],
    timerArmed := true }

/-- The fresh default handler after ingesting the sample record three
times. -/
def threeSampleState : LogAggregatorHandler :=
  ((freshHandler.emit sampleRecord).emit sampleRecord).emit sampleRecord

/-! ## Helper lemmas -/

theorem pyCharListLe_iff (l1 l2 : List Char) :
    pyCharListLe l1 l2 = true ↔ ¬ List.Lex (· < ·) l2 l1 := by
  induction l1 generalizing l2 with
  | nil =>
    simp only [pyCharListLe, true_iff]
    intro h
    cases h
  | cons a as ih =>
    cases l2 with
    | nil =>
      simp only [pyCharListLe]
      constructor
      · intro h; cases h
      · intro h; exact absurd List.Lex.nil h
    | cons b bs =>
      by_cases hab : a < b
      · simp only [pyCharListLe, if_pos hab, true_iff]
        intro h
        cases h with
        | cons h' => exact absurd hab (lt_irrefl _)
        | rel h' => exact absurd hab (asymm h')
      · by_cases hba : b < a
        · simp only [pyCharListLe, if_neg hab, if_pos hba, Bool.false_eq_true,
            false_iff, not_not]
          exact List.Lex.rel hba
        · have heq : a = b := le_antisymm (not_lt.mp hba) (not_lt.mp hab)
          subst heq
          simp only [pyCharListLe, if_neg hab, ih bs]
          constructor
          · intro h hlex
            cases hlex with
            | cons h' => exact h h'
            | rel h' => exact absurd h' hab
          · intro h hlex
            exact h (List.Lex.cons hlex)

theorem pyStrLe_iff (s t : String) : pyStrLe s t = true ↔ s ≤ t := by
  rw [String.le_iff_toList_le, ← not_lt]
  exact pyCharListLe_iff s.data t.data

theorem insertPair_perm (p : String × LogAggregatorCache)
    (l : List (String × LogAggregatorCache)) : (insertPair p l).Perm (p :: l) := by
  induction l with
  | nil => exact List.Perm.refl _
  | cons q rest ih =>
    simp only [insertPair]
    by_cases h : pyStrLe p.1 q.1
    · rw [if_pos h]
    · rw [if_neg h]
      exact (ih.cons q).trans (List.Perm.swap p q rest)

theorem sortPairs_perm (l : List (String × LogAggregatorCache)) :
    (sortPairs l).Perm l := by
  induction l with
  | nil => exact List.Perm.refl _
  | cons p rest ih =>
    exact (insertPair_perm p (sortPairs rest)).trans (ih.cons p)

theorem sorted_insertPair (p : String × LogAggregatorCache)
    (l : List (String × LogAggregatorCache))
    (h : l.Pairwise (fun x y => x.1 ≤ y.1)) :
    (insertPair p l).Pairwise (fun x y => x.1 ≤ y.1) := by
  induction l with
  | nil => simp [insertPair]
  | cons q rest ih =>
    rw [List.pairwise_cons] at h
    obtain ⟨hq, hrest⟩ := h
    simp only [insertPair]
    by_cases hle : pyStrLe p.1 q.1
    · rw [if_pos hle]
      have hpq : p.1 ≤ q.1 := (pyStrLe_iff _ _).mp hle
      refine List.Pairwise.cons ?_ (List.Pairwise.cons hq hrest)
      intro y hy
      rcases List.mem_cons.mp hy with hy | hy
      · exact hy ▸ hpq
      · exact hpq.trans (hq y hy)
    · rw [if_neg hle]
      have hqp : q.1 ≤ p.1 :=
        le_of_lt (not_le.mp (fun hc => hle ((pyStrLe_iff _ _).mpr hc)))
      refine List.Pairwise.cons ?_ (ih hrest)
      intro y hy
      have hy' : y ∈ p :: rest := (insertPair_perm p rest).mem_iff.mp hy
      rcases List.mem_cons.mp hy' with hy' | hy'
      · exact hy' ▸ hqp
      · exact hq y hy'

theorem sorted_sortPairs (l : List (String × LogAggregatorCache)) :
    (sortPairs l).Pairwise (fun x y => x.1 ≤ y.1) := by
  induction l with
  | nil => simp [sortPairs]
  | cons p rest ih => exact sorted_insertPair p _ ih

theorem length_ne_zero_of_ne_empty (s : String) (h : s ≠ "") : s.length ≠ 0 := by
  intro h0
  apply h
  apply String.ext
  exact List.length_eq_zero.mp h0

theorem mk_append (l1 l2 : List Char) :
    String.mk (l1 ++ l2) = String.mk l1 ++ String.mk l2 := by
  apply String.ext
  rw [String.data_append]

theorem foldl_concatSep (sep : String) (vals : List String) :
    ∀ acc : String, vals.foldl (fun a v => a ++ v ++ sep) acc
      = acc ++ concatSep sep vals := by
  induction vals with
  | nil => intro acc; simp [concatSep]
  | cons v rest ih =>
    intro acc
    rw [List.foldl_cons, ih]
    show acc ++ v ++ sep ++ concatSep sep rest = acc ++ (v ++ sep ++ concatSep sep rest)
    rw [String.append_assoc, String.append_assoc, String.append_assoc]

theorem pySlice_concatSep (sep : String) (hsep : sep ≠ "") :
    ∀ vals : List String,
      pySliceToNeg (concatSep sep vals) sep.length = joinSep sep vals := by
  have hn0 : sep.length ≠ 0 := length_ne_zero_of_ne_empty sep hsep
  intro vals
  induction vals with
  | nil =>
    show pySliceToNeg "" sep.length = ""
    rw [pySliceToNeg, if_neg hn0]
    apply String.ext
    show List.take ("".length - sep.length) [] = []
    rw [List.take_nil]
  | cons v rest ih =>
    cases rest with
    | nil =>
      show pySliceToNeg (v ++ sep ++ "") sep.length = v
      rw [String.append_empty, pySliceToNeg, if_neg hn0, String.data_append]
      have hlen : (v.data ++ sep.data).length - sep.length = v.data.length := by
        rw [List.length_append]
        have : sep.length = sep.data.length := rfl
        omega
      rw [hlen, List.take_left]
    | cons w rest' =>
      show pySliceToNeg (v ++ sep ++ concatSep sep (w :: rest')) sep.length
        = v ++ sep ++ joinSep sep (w :: rest')
      have hle : sep.length ≤ (concatSep sep (w :: rest')).data.length := by
        show sep.length ≤ (w ++ sep ++ concatSep sep rest').data.length
        have h1 : (w ++ sep ++ concatSep sep rest').length
            = w.length + sep.length + (concatSep sep rest').length := by
          rw [String.length_append, String.length_append]
        have h2 : (w ++ sep ++ concatSep sep rest').length
            = (w ++ sep ++ concatSep sep rest').data.length := rfl
        omega
      rw [pySliceToNeg, if_neg hn0, String.data_append, String.data_append]
      have hlen : (v.data ++ sep.data ++ (concatSep sep (w :: rest')).data).length
            - sep.length
          = (v.data ++ sep.data).length
            + ((concatSep sep (w :: rest')).data.length - sep.length) := by
        rw [List.length_append (v.data ++ sep.data) (concatSep sep (w :: rest')).data]
        omega
      rw [hlen, List.take_append, mk_append, mk_append]
      have hih : String.mk
            ((concatSep sep (w :: rest')).data.take
              ((concatSep sep (w :: rest')).data.length - sep.length))
          = joinSep sep (w :: rest') := by
        have h := ih
        rwa [pySliceToNeg, if_neg hn0] at h
      rw [hih]

theorem find_unique_emit (s : LogAggregatorHandler) (r r' : LogRecord) :
    (s.emit r).find_unique r' = s.find_unique r' := rfl

theorem emit_empty_cache (s : LogAggregatorHandler) (r : LogRecord)
    (hc : s.cache = []) :
    (s.emit r).cache = [(s.find_unique r, (LogAggregatorCache.new.cache r).1)] := by
  simp [LogAggregatorHandler.emit, hc, dictGet, dictSet]

theorem cache_success (e : LogAggregatorCache) (r : LogRecord) (m : String)
    (he : e.message = some m) (hr : r.msg = some m) :
    e.cache r
      = ({ e with
            timestamp := e.timestamp ++ [r.created],
            args := e.args ++ [r.args],
            counter := e.counter + 1 }, none) := by
  rw [LogAggregatorCache.cache]
  simp only [he, hr, reduceCtorEq, if_neg, ite_false]
  simp

theorem cache_new_success (r : LogRecord) :
    LogAggregatorCache.new.cache r
      = ({ message := r.msg, counter := 1, timestamp := [r.created],
           args := [r.args] }, none) := by
  rw [LogAggregatorCache.cache]
  simp [LogAggregatorCache.new]

theorem foldl_emit_single_key (rs : List LogRecord) :
    ∀ (s : LogAggregatorHandler) (k : String) (e : LogAggregatorCache) (m : String),
    s.cache = [(k, e)] → e.message = some m →
    (∀ r ∈ rs, r.msg = some m) → (∀ r ∈ rs, s.find_unique r = k) →
    ∃ e', (rs.foldl LogAggregatorHandler.emit s).cache = [(k, e')]
      ∧ e'.message = some m ∧ e'.counter = e.counter + rs.length := by
  induction rs with
  | nil => exact fun s k e m hc hm _ _ => ⟨e, hc, hm, rfl⟩
  | cons r rest ih =>
    intro s k e m hc hm hmsg hkey
    have hk : s.find_unique r = k := hkey r (List.mem_cons_self r rest)
    have hr : r.msg = some m := hmsg r (List.mem_cons_self r rest)
    have hemit : (s.emit r).cache
        = [(k, { e with
                  timestamp := e.timestamp ++ [r.created],
                  args := e.args ++ [r.args],
                  counter := e.counter + 1 })] := by
      rw [LogAggregatorHandler.emit]
      simp only [hk, hc, dictGet, if_pos rfl, Option.getD_some,
        cache_success e r m hm hr, dictSet]
      simp
      rw [cache_success e r m hm hr]
    obtain ⟨e', h1, h2, h3⟩ :=
      ih (s.emit r) k _ m hemit hm
        (fun r' hr' => hmsg r' (List.mem_cons_of_mem r hr'))
        (fun r' hr' => by
          rw [find_unique_emit]
          exact hkey r' (List.mem_cons_of_mem r hr'))
    refine ⟨e', h1, h2, ?_⟩
    rw [h3]
    simp only [List.length_cons]
    omega

theorem emitLoop_ok_of_messages (l : List (String × LogAggregatorCache))
    (h : ∀ p ∈ l, p.2.message ≠ none) :
    emitLoop (fun _ => true) l
      = Except.ok (l.map (fun p =>
          p.1 ++ "\t" ++ p.2.message.getD "" ++ "\t (occurred "
            ++ toString p.2.counter ++ " times)")) := by
  induction l with
  | nil => rfl
  | cons p rest ih =>
    obtain ⟨msg, hm⟩ :=
      Option.ne_none_iff_exists'.mp (h p (List.mem_cons_self p rest))
    rw [emitLoop]
    simp only [LogAggregatorCache.toStr, hm, Option.map_some', if_pos rfl,
      ih (fun q hq => h q (List.mem_cons_of_mem p hq)), Option.getD_some,
      List.map_cons]
    simp [String.append_assoc]

theorem store_aggregation_cases (s : LogAggregatorHandler) (sink : String → Bool) :
    s.store_aggregation sink
      = match emitLoop sink (sortPairs s.cache) with
        | Except.error e => ({ s with timerArmed := false, cache := [] }, Except.error e)
        | Except.ok lines =>
          ({ s with timerArmed := true, cache := [] }, Except.ok lines) := rfl

theorem flush_single_entry (s : LogAggregatorHandler) (k : String)
    (e : LogAggregatorCache) (m : String) (hc : s.cache = [(k, e)])
    (hm : e.message = some m) :
    (s.store_aggregation (fun _ => true)).2
      = Except.ok [k ++ "\t" ++ m ++ "\t (occurred "
          ++ toString e.counter ++ " times)"] := by
  rw [store_aggregation_cases, hc]
  have h1 : sortPairs [(k, e)] = [(k, e)] := rfl
  rw [h1, emitLoop_ok_of_messages _ (by simp [hm])]
  simp [hm]

/-! ## Claim theorems -/

/-- C2: for an entry already holding a stored message, caching a record with
a different message template raises the mismatch error and returns the entry
unchanged: the counter is not incremented and no timestamp or args element
is appended. -/
theorem mismatched_message_raises_and_leaves_entry_unchanged
    (e : LogAggregatorCache) (r : LogRecord) (m : String)
    (he : e.message = some m) (hr : r.msg ≠ some m) :
    e.cache r = (e, some CacheError.mismatchedMessage) := by
  simp [LogAggregatorCache.cache, he, Ne.symm hr]

/-- Witness for C2 at a concrete entry and record. -/
theorem mismatched_message_raises_witness :
    mismatchEntry.message = some "ok" ∧ failRecord.msg ≠ some "ok"
    ∧ mismatchEntry.cache failRecord
        = (mismatchEntry, some CacheError.mismatchedMessage) :=
  ⟨by decide, by decide,
    mismatched_message_raises_and_leaves_entry_unchanged mismatchEntry failRecord
      "ok" (by decide) (by decide)⟩

/-- C5 counterexample: when the first record cached under a key has the None
message template, the stored message (still None) is overwritten by the next
cache call, so the stored message is not immutable after the first record. -/
theorem message_overwritten_after_none_counterexample :
    (LogAggregatorCache.new.cache noneMsgRecord).1.message = none
    ∧ (((LogAggregatorCache.new.cache noneMsgRecord).1.cache sampleRecord).1.message
        = some "disk full") := by decide

/-- C5 amended: the stored message is set from the first record whose message
template is not None; once the stored message is a non-None value, no cache
call ever modifies it (while it is None, a later record's template overwrites
it). -/
theorem message_immutable_once_set (e : LogAggregatorCache) (r : LogRecord)
    (m : String) (he : e.message = some m) :
    (e.cache r).1.message = some m := by
  rw [LogAggregatorCache.cache]
  simp only [he, reduceCtorEq, if_neg, ite_false]
  split <;> simp [he]

/-- Witness for the amended C5 at a concrete entry and record. -/
theorem message_immutable_once_set_witness :
    mismatchEntry.message = some "ok"
    ∧ (mismatchEntry.cache failRecord).1.message = some "ok" :=
  ⟨by decide, message_immutable_once_set mismatchEntry failRecord "ok" (by decide)⟩

/-- C8: evidence that the flush step does not re-arm the timer when emission
raises.  With a sink that raises, store_aggregation returns with no timer
armed and the error propagating; with a succeeding sink the timer is
re-armed.  The claim (and the spec) say the timer must be re-armed regardless
of emission outcome, so the code, which only reaches the re-arm lines after a
successful emission loop, is the bug. -/
theorem timer_not_rearmed_on_emission_error :
    (oneEntryState.store_aggregation (fun _ => false)).1.timerArmed = false
    ∧ (oneEntryState.store_aggregation (fun _ => false)).2 = Except.error ()
    ∧ (oneEntryState.store_aggregation (fun _ => true)).1.timerArmed = true := by
  decide

/-- C9: evidence that the constructor performs no fail-fast validation of the
flush interval.  Construction always succeeds and arms a timer; a negative
interval is accepted and stored as given, and the falsy interval 0 is
silently replaced by the default 300 instead of failing. -/
theorem construction_accepts_nonpositive_interval :
    ((LogAggregatorHandler.init initialClassState (some (-5)) none false).1.flush_timer
      = -5)
    ∧ ((LogAggregatorHandler.init initialClassState (some 0) none false).1.flush_timer
      = 300)
    ∧ ((LogAggregatorHandler.init initialClassState none none false).1.flush_timer
      = 300)
    ∧ (∀ (t : Option Int) (sep : Option String) (b : Bool),
        (LogAggregatorHandler.init initialClassState t sep b).1.timerArmed = true) :=
  ⟨by decide, by decide, by decide, fun _ _ _ => rfl⟩

/-- C10: constructing a handler with add_process_thread true mutates the
class-level default metadata list in place, so a handler constructed
afterwards with the flag false still derives keys from the extended list
(its key for the sample record differs from a fresh-world default handler's),
and a further construction with the flag true appends process and thread a
second time. -/
theorem shared_default_metadata_mutation :
    ((LogAggregatorHandler.init initialClassState none none true).2.defaultMetadata
      = ["filename", "name", "funcName", "lineno", "levelname", "process", "thread"])
    ∧ ((LogAggregatorHandler.init
          (LogAggregatorHandler.init initialClassState none none true).2
          none none false).1.metadata
        = ["filename", "name", "funcName", "lineno", "levelname", "process", "thread"])
    ∧ ((LogAggregatorHandler.init
          (LogAggregatorHandler.init initialClassState none none true).2
          none none true).2.defaultMetadata
        = ["filename", "name", "funcName", "lineno", "levelname", "process", "thread",
           "process", "thread"])
    ∧ ((LogAggregatorHandler.init
          (LogAggregatorHandler.init initialClassState none none true).2
          none none false).1.find_unique sampleRecord
        ≠ freshHandler.find_unique sampleRecord) := by
  refine ⟨by decide, by decide, by decide, by decide⟩

/-- C3: the flush step's swap installs a new empty live mapping and the
emission result is computed from the previous mapping (the snapshot) alone;
the post-swap live cache does not depend on the sink's behaviour, and a
record emitted after the swap lands in the new live mapping only. -/
theorem detach_and_reset (s : LogAggregatorHandler) (sink sink' : String → Bool)
    (r : LogRecord) :
    (s.store_aggregation sink).1.cache = []
    ∧ (s.store_aggregation sink).2 = emitLoop sink (sortPairs s.cache)
    ∧ (s.store_aggregation sink).1.cache = (s.store_aggregation sink').1.cache
    ∧ ((s.store_aggregation sink).1.emit r).cache
        = [(s.find_unique r, (LogAggregatorCache.new.cache r).1)] := by
  have hcache : ∀ sk : String → Bool, (s.store_aggregation sk).1.cache = [] := by
    intro sk
    rw [store_aggregation_cases]
    rcases emitLoop sk (sortPairs s.cache) with e | l <;> rfl
  refine ⟨hcache sink, ?_, (hcache sink).trans (hcache sink').symm, ?_⟩
  · rw [store_aggregation_cases]
    rcases emitLoop sink (sortPairs s.cache) with e | l <;> rfl
  · rw [emit_empty_cache _ r (hcache sink)]
    rw [store_aggregation_cases]
    rcases emitLoop sink (sortPairs s.cache) with e | l <;> rfl

/-- C4: find_unique is the pure join of the stringified attribute values, in
the configured order, separated by the separator with no trailing separator,
substituting for an absent attribute the placeholder string missing plus the
attribute's name; being a function of the handler's configuration and the
record, it is deterministic and never fails. -/
theorem find_unique_pure_join (s : LogAggregatorHandler) (r : LogRecord)
    (hsep : s.separator ≠ "") :
    s.find_unique r
      = joinSep s.separator
          (s.metadata.map (fun a => (r.attrs a).getD ("missing " ++ a))) := by
  rw [LogAggregatorHandler.find_unique]
  rw [← List.foldl_map (fun a => (r.attrs a).getD ("missing " ++ a))
        (fun acc v => acc ++ v ++ s.separator) s.metadata ""]
  rw [foldl_concatSep, String.empty_append, pySlice_concatSep s.separator hsep]

/-- Witness for C4 at the default configuration and the sample record. -/
theorem find_unique_pure_join_witness :
    freshHandler.separator ≠ ""
    ∧ freshHandler.find_unique sampleRecord
        = joinSep freshHandler.separator
            (freshHandler.metadata.map
              (fun a => (sampleRecord.attrs a).getD ("missing " ++ a))) :=
  ⟨by decide, find_unique_pure_join freshHandler sampleRecord (by decide)⟩

/-- C6: emission produces exactly one pair per entry of the snapshot (the
sorted list is a permutation of it) with the keys in strictly ascending
lexicographic order, and in particular flushing a cache holding keys
A-tab-x, C-tab-z, B-tab-y inserted in that order emits the three lines in
the order A, B, C. -/
theorem emission_sorted_by_key :
    (∀ c : List (String × LogAggregatorCache), (c.map Prod.fst).Nodup →
        (sortPairs c).Perm c ∧ ((sortPairs c).map Prod.fst).Sorted (· < ·))
    ∧ ((orderedScenarioState.store_aggregation (fun _ => true)).2
        = Except.ok
            ["A\tx\ta\t (occurred 1 times)", "B\ty\tb\t (occurred 1 times)",
             "C\tz\tc\t (occurred 1 times)"]) := by
  constructor
  · intro c hnodup
    refine ⟨sortPairs_perm c, ?_⟩
    have hle : ((sortPairs c).map Prod.fst).Pairwise (· ≤ ·) :=
      List.pairwise_map.mpr (sorted_sortPairs c)
    have hnd : ((sortPairs c).map Prod.fst).Nodup :=
      ((sortPairs_perm c).map Prod.fst).nodup_iff.mpr hnodup
    exact List.Pairwise.imp (fun h => lt_of_le_of_ne h.1 h.2) (hle.and hnd)
  · decide

/-- Witness for C6 at the concrete ordering-scenario cache. -/
theorem emission_sorted_by_key_witness :
    (orderedScenarioState.cache.map Prod.fst).Nodup
    ∧ ((sortPairs orderedScenarioState.cache).Perm orderedScenarioState.cache
        ∧ ((sortPairs orderedScenarioState.cache).map Prod.fst).Sorted (· < ·)) :=
  ⟨by decide, emission_sorted_by_key.1 orderedScenarioState.cache (by decide)⟩

/-- C7 counterexample: flushing after ingesting three identical records with
message disk full emits one line that carries a space between the second tab
and the occurrence count, so it differs from the claimed line with no
space. -/
theorem rendered_line_space_counterexample :
    ((threeSampleState.store_aggregation (fun _ => true)).2
      = Except.ok ["app.py\troot\tmain\t42\tERROR\tdisk full\t (occurred 3 times)"])
    ∧ ((threeSampleState.store_aggregation (fun _ => true)).2
      ≠ Except.ok ["app.py\troot\tmain\t42\tERROR\tdisk full\t(occurred 3 times)"]) := by
  decide

/-- C7 amended: for every flushed entry the emitted line is the key, a tab,
the entry's first message, a tab, a space, then the occurrence count in the
form occurred N times in parentheses. -/
theorem rendered_line_format (s : LogAggregatorHandler)
    (h : ∀ p ∈ s.cache, p.2.message ≠ none) :
    (s.store_aggregation (fun _ => true)).2
      = Except.ok ((sortPairs s.cache).map (fun p =>
          p.1 ++ "\t" ++ p.2.message.getD "" ++ "\t (occurred "
            ++ toString p.2.counter ++ " times)")) := by
  have h' : ∀ p ∈ sortPairs s.cache, p.2.message ≠ none :=
    fun p hp => h p ((sortPairs_perm s.cache).mem_iff.mp hp)
  rw [store_aggregation_cases, emitLoop_ok_of_messages _ h']

/-- Witness for the amended C7 at the three-record sample state. -/
theorem rendered_line_format_witness :
    (∀ p ∈ threeSampleState.cache, p.2.message ≠ none)
    ∧ ((threeSampleState.store_aggregation (fun _ => true)).2
        = Except.ok ((sortPairs threeSampleState.cache).map (fun p =>
            p.1 ++ "\t" ++ p.2.message.getD "" ++ "\t (occurred "
              ++ toString p.2.counter ++ " times)"))) :=
  ⟨by decide, rendered_line_format threeSampleState (by decide)⟩

/-- C1: ingesting any non-empty sequence of records that share one identity
key and one message template into a handler with an empty cache leaves
exactly one entry, whose counter is the number of records, and flushing then
emits exactly one line for that key carrying that count. -/
theorem counting_invariant (s : LogAggregatorHandler) (rs : List LogRecord)
    (m k : String) (hc : s.cache = []) (hne : rs ≠ [])
    (hmsg : ∀ r ∈ rs, r.msg = some m)
    (hkey : ∀ r ∈ rs, s.find_unique r = k) :
    ∃ e, (rs.foldl LogAggregatorHandler.emit s).cache = [(k, e)]
      ∧ e.message = some m ∧ e.counter = rs.length
      ∧ ((rs.foldl LogAggregatorHandler.emit s).store_aggregation
            (fun _ => true)).2
          = Except.ok [k ++ "\t" ++ m ++ "\t (occurred "
              ++ toString rs.length ++ " times)"] := by
  cases rs with
  | nil => exact absurd rfl hne
  | cons r rest =>
    have hr : r.msg = some m := hmsg r (List.mem_cons_self r rest)
    have hk : s.find_unique r = k := hkey r (List.mem_cons_self r rest)
    have h0 : (s.emit r).cache
        = [(k, { message := some m, counter := 1,
                 timestamp := [r.created], args := [r.args] })] := by
      rw [emit_empty_cache s r hc, cache_new_success r, hk, hr]
    obtain ⟨e', h1, h2, h3⟩ :=
      foldl_emit_single_key rest (s.emit r) k _ m h0 rfl
        (fun r' hr' => hmsg r' (List.mem_cons_of_mem r hr'))
        (fun r' hr' => by
          rw [find_unique_emit]
          exact hkey r' (List.mem_cons_of_mem r hr'))
    have hcnt : e'.counter = (r :: rest).length := by
      rw [h3]
      simp only [List.length_cons]
      omega
    refine ⟨e', ?_, h2, ?_, ?_⟩
    · rw [List.foldl_cons]
      exact h1
    · exact hcnt
    · rw [List.foldl_cons]
      rw [flush_single_entry _ k e' m h1 h2, hcnt]

/-- Witness for C1: three identical sample records through the default
handler. -/
theorem counting_invariant_witness :
    freshHandler.cache = []
    ∧ ([sampleRecord, sampleRecord, sampleRecord] ≠ [])
    ∧ (∀ r ∈ [sampleRecord, sampleRecord, sampleRecord], r.msg = some "disk full")
    ∧ (∀ r ∈ [sampleRecord, sampleRecord, sampleRecord],
        freshHandler.find_unique r = "app.py\troot\tmain\t42\tERROR")
    ∧ ∃ e, ([sampleRecord, sampleRecord, sampleRecord].foldl
          LogAggregatorHandler.emit freshHandler).cache
            = [("app.py\troot\tmain\t42\tERROR", e)]
      ∧ e.message = some "disk full"
      ∧ e.counter = [sampleRecord, sampleRecord, sampleRecord].length
      ∧ (([sampleRecord, sampleRecord, sampleRecord].foldl
            LogAggregatorHandler.emit freshHandler).store_aggregation
              (fun _ => true)).2
          = Except.ok ["app.py\troot\tmain\t42\tERROR" ++ "\t" ++ "disk full"
              ++ "\t (occurred "
              ++ toString [sampleRecord, sampleRecord, sampleRecord].length
              ++ " times)"] :=
  ⟨rfl, List.cons_ne_nil sampleRecord [sampleRecord, sampleRecord],
    by decide, by decide,
    counting_invariant freshHandler [sampleRecord, sampleRecord, sampleRecord]
      "disk full" "app.py\troot\tmain\t42\tERROR" rfl
      (List.cons_ne_nil sampleRecord [sampleRecord, sampleRecord])
      (by decide) (by decide)⟩
